import Mathlib

/-!
# Target simplification action of the blast proof-search engine

A shallow embedding of `src/library/blast/simplify_actions.cpp`:

* `use_iff`                                  (lines 14-16)
* `simplify_target_proof_step_cell.resolve`  (lines 27-37)
* `simplify_target_action`                   (lines 40-51)

The C++ code reads an ambient environment, an ambient application builder and
an ambient simplifier, and mutates the current proof state in place.  Here the
ambient collaborators are the fields of one explicit record (`blast_context`)
and the current state is passed in and returned.
-/

namespace blast

/-! ## Terms and names -/

/-- Modelled from the spec: identifiers (`name` of the kernel, not part of the
sources at hand).  A name is a dot-separated string such as `iff.mpr`. -/
structure name where
  id : String
deriving DecidableEq

/-- Modelled from the spec: the constant `get_iff_name()` of
`library/constants.h`, the relation `Iff`. -/
def get_iff_name : name := ⟨"iff"⟩

/-- Modelled from the spec: the constant `get_eq_name()` of
`library/constants.h`, the relation `Eq`. -/
def get_eq_name : name := ⟨"eq"⟩

/-- Modelled from the spec: the constant `get_iff_mpr_name()` of
`library/constants.h`, the converse-implication lemma for `Iff`. -/
def get_iff_mpr_name : name := ⟨"iff.mpr"⟩

/-- Modelled from the spec: the constant `get_eq_mpr_name()` of
`library/constants.h`, the converse-substitution lemma for `Eq`. -/
def get_eq_mpr_name : name := ⟨"eq.mpr"⟩

/-- Modelled from the spec: the external Term type `expr`: an immutable tree
with structural equality.  Local constants carry their type, as the kernel's
local constants do. -/
inductive expr where
  | Sort (u : Nat)
  | Constant (n : name)
  | Local (n : name) (type : expr)
  | App (f : expr) (a : expr)
deriving DecidableEq

/-! ## Simplifier, application builder, action results -/

/-- Modelled from the spec: the external rule-set index handed to the
simplifier (`simp_rule_sets`), here the list of its rewrite lemmas. -/
structure simp_rule_sets where
  m_rules : List expr
deriving DecidableEq

/-- Modelled from the spec: the Simplification Result of
`library/blast/simplifier.h`: a new term and an optional equivalence proof.
`has_proof()` is `m_proof.isSome`, `get_new()` is `m_new`. -/
structure simp_result where
  m_new : expr
  m_proof : Option expr
deriving DecidableEq

/-- The C++ accessor `result::has_proof()`. -/
def simp_result.has_proof (r : simp_result) : Bool := r.m_proof.isSome

/-- The C++ accessor `result::get_new()`. -/
def simp_result.get_new (r : simp_result) : expr := r.m_new

/-- Modelled from the spec: the one failure condition of the App Builder
(`app_builder_exception`, "unbuildable application"). -/
inductive app_builder_exception where
  | mk
deriving DecidableEq

/-- Modelled from the spec: the Action Result of `library/blast/action_result.h`,
the three-way outcome `Failed`, `Solved(proof)`, `NewBranch`. -/
inductive action_result where
  | failed
  | solved (pr : expr)
  | new_branch
deriving DecidableEq

/-! ## Proof steps and proof state -/

/-- The class `simplify_target_proof_step_cell` (lines 18-38): the captured
relation tag `m_iff` and the captured equivalence proof `m_eq_pr`. -/
structure simplify_target_proof_step_cell where
  m_iff : Bool
  m_eq_pr : expr
deriving DecidableEq

/-- Modelled from the spec: the polymorphic Proof Step (`proof_step_cell` and
its subclasses).  Only the Simplify-Target variant is defined in the sources at
hand; `other_step` stands for a step pushed by any other action. -/
inductive proof_step where
  | simplify_target (cell : simplify_target_proof_step_cell)
  | other_step (kind : Nat)
deriving DecidableEq

/-- Modelled from the spec: the Proof State of `library/blast/state.h`: the
target, the hypothesis/metavariable context, the active rule sets and the
reconstruction stack (top of the stack first). -/
structure state where
  m_target : expr
  m_context : List expr
  m_simp_rule_sets : simp_rule_sets
  m_proof_steps : List proof_step
deriving DecidableEq

/-- The C++ accessor `state::get_target()`. -/
def state.get_target (s : state) : expr := s.m_target

/-- The C++ accessor `state::get_simp_rule_sets()`. -/
def state.get_simp_rule_sets (s : state) : simp_rule_sets := s.m_simp_rule_sets

/-- Modelled from the spec: `state::push_proof_step`, "appends to the top of
the stack". -/
def state.push_proof_step (s : state) (step : proof_step) : state :=
  { s with m_proof_steps := step :: s.m_proof_steps }

/-- Modelled from the spec: `state::set_target`, replaces the target. -/
def state.set_target (s : state) (t : expr) : state :=
  { s with m_target := t }

/-- The ambient collaborators the C++ code reaches through global accessors:
`is_standard(env())`, `is_prop`, `simplify` and `get_app_builder().mk_app`.
None of them is defined in the sources at hand, so each is a parameter. -/
structure blast_context where
  is_standard : Bool
  is_prop : expr → Bool
  simplify : name → expr → simp_rule_sets → simp_result
  mk_app : name → expr → expr → Except app_builder_exception expr

/-! ## The embedded code -/

/-- Source lines 14-16: `return is_standard(env()) && is_prop(target);`. -/
def use_iff (c : blast_context) (target : expr) : Bool :=
  c.is_standard && c.is_prop target

/-- Source lines 27-37, `simplify_target_proof_step_cell::resolve`.  The
`try`/`catch (app_builder_exception &)` becomes a match on the builder's
result.  The method does not touch the current state: the state is threaded
through unchanged. -/
def simplify_target_proof_step_cell.resolve (c : blast_context)
    (cell : simplify_target_proof_step_cell) (pr : expr) (s : state) :
    action_result × state :=
  if cell.m_iff then
    match c.mk_app get_iff_mpr_name cell.m_eq_pr pr with
    | Except.ok q => (action_result.solved q, s)
    | Except.error _ => (action_result.failed, s)
  else
    match c.mk_app get_eq_mpr_name cell.m_eq_pr pr with
    | Except.ok q => (action_result.solved q, s)
    | Except.error _ => (action_result.failed, s)

/-- Source lines 40-51, `simplify_target_action`.  `curr_state()` is the
argument `s`; the returned pair is the action result and the state after the
call.  `r.has_proof()` / `r.get_proof()` is the match on `r.m_proof`. -/
def simplify_target_action (c : blast_context) (s : state) : action_result × state :=
  let target := s.get_target
  let iff := use_iff c target
  let rname := if iff then get_iff_name else get_eq_name
  let r := c.simplify rname target s.get_simp_rule_sets
  match r.m_proof with
  | none => (action_result.failed, s)
  | some pr =>
    let s1 := s.push_proof_step
      (proof_step.simplify_target (simplify_target_proof_step_cell.mk iff pr))
    let s2 := s1.set_target r.get_new
    (action_result.new_branch, s2)

/-! ## Typing of the reconstruction lemmas -/

/-- Modelled from the spec: the proposition `a ↔ b` as a term. -/
def mk_iff (a b : expr) : expr :=
  expr.App (expr.App (expr.Constant get_iff_name) a) b

/-- Modelled from the spec: the proposition `@eq A a b` as a term. -/
def mk_eq (A a b : expr) : expr :=
  expr.App (expr.App (expr.App (expr.Constant get_eq_name) A) a) b

/-- Modelled from the spec: the fully applied converse lemma
`@iff.mpr a b e p`, the spec's `Iff.mpr(e, p)`. -/
def mk_iff_mpr (a b e p : expr) : expr :=
  expr.App (expr.App (expr.App (expr.App (expr.Constant get_iff_mpr_name) a) b) e) p

/-- Modelled from the spec: the fully applied converse lemma
`@eq.mpr a b e p`, the spec's `Eq.mpr(e, p)`. -/
def mk_eq_mpr (a b e p : expr) : expr :=
  expr.App (expr.App (expr.App (expr.App (expr.Constant get_eq_mpr_name) a) b) e) p

/-- Modelled from the spec: reads `a` and `b` off a term `a ↔ b`. -/
def dest_iff : expr → Option (expr × expr)
  | expr.App (expr.App (expr.Constant n) a) b =>
    if n = get_iff_name then some (a, b) else none
  | _ => none

/-- Modelled from the spec: reads `A`, `a` and `b` off a term `@eq A a b`. -/
def dest_eq : expr → Option (expr × expr × expr)
  | expr.App (expr.App (expr.App (expr.Constant n) A) a) b =>
    if n = get_eq_name then some (A, a, b) else none
  | _ => none

/-- Modelled from the spec: the external type checker, on the fragment the
reconstruction needs ("type-checks as a proof of").  A sort has the next sort as
type, a local constant the type it carries, and an application of a converse
lemma `@iff.mpr a b e p` (`@eq.mpr a b e p`) has type `a` when `e : a ↔ b`
(`e : @eq A a b`) and `p : b`.  Anything else is not typed by this fragment. -/
def infer_type : expr → Option expr
  | expr.Sort u => some (expr.Sort (u + 1))
  | expr.Constant _ => none
  | expr.Local _ t => some t
  | expr.App (expr.App (expr.App (expr.App (expr.Constant n) a) b) e) p =>
    if n = get_iff_mpr_name then
      match infer_type e, infer_type p with
      | some te, some tp =>
        if dest_iff te = some (a, b) ∧ tp = b then some a else none
      | _, _ => none
    else if n = get_eq_mpr_name then
      match infer_type e, infer_type p with
      | some te, some tp =>
        match dest_eq te with
        | some (_, a1, b1) => if a1 = a ∧ b1 = b ∧ tp = b then some a else none
        | none => none
      | _, _ => none
    else none
  | expr.App _ _ => none

/-- Modelled from the spec: the App Builder, `app_builder::mk_app` of
`library/app_builder.h`, for the two reconstruction lemmas: "given a constant
name and argument terms, elaborates a fully-applied, type-correct term,
inferring implicit arguments; fails when no type-correct application exists".
The implicit arguments `a`, `b` are read off the type of the first explicit
argument; the second explicit argument must have type `b`. -/
def app_builder.mk_app (n : name) (e p : expr) : Except app_builder_exception expr :=
  if n = get_iff_mpr_name then
    match infer_type e with
    | some te =>
      match dest_iff te with
      | some (a, b) =>
        if infer_type p = some b then Except.ok (mk_iff_mpr a b e p)
        else Except.error app_builder_exception.mk
      | none => Except.error app_builder_exception.mk
    | none => Except.error app_builder_exception.mk
  else if n = get_eq_mpr_name then
    match infer_type e with
    | some te =>
      match dest_eq te with
      | some (_, a, b) =>
        if infer_type p = some b then Except.ok (mk_eq_mpr a b e p)
        else Except.error app_builder_exception.mk
      | none => Except.error app_builder_exception.mk
    | none => Except.error app_builder_exception.mk
  else Except.error app_builder_exception.mk

/-! ## Concrete data for the worked scenarios -/

/-- The sort of propositions. -/
def ex_Prop : expr := expr.Sort 0

/-- The proposition `true`. -/
def ex_true : expr := expr.Constant ⟨"true"⟩

/-- The target of the spec's example scenario, `(P ∧ Q) ↔ (Q ∧ P)`. -/
def ex_T : expr :=
  mk_iff
    (expr.App (expr.App (expr.Constant ⟨"and"⟩) (expr.Local ⟨"P"⟩ ex_Prop)) (expr.Local ⟨"Q"⟩ ex_Prop))
    (expr.App (expr.App (expr.Constant ⟨"and"⟩) (expr.Local ⟨"Q"⟩ ex_Prop)) (expr.Local ⟨"P"⟩ ex_Prop))

/-- The equivalence proof of the example scenario, `e : T ↔ true`. -/
def ex_e : expr := expr.Local ⟨"e"⟩ (mk_iff ex_T ex_true)

/-- The candidate proof of the example scenario, `p : true`. -/
def ex_p : expr := expr.Local ⟨"p"⟩ ex_true

/-- A data-valued target, the type `nat`. -/
def ex_nat : expr := expr.Constant ⟨"nat"⟩

/-- Another data-valued term, the type `num`. -/
def ex_num : expr := expr.Constant ⟨"num"⟩

/-- A proof `h : @eq Type nat num`. -/
def ex_h : expr := expr.Local ⟨"h"⟩ (mk_eq (expr.Sort 1) ex_nat ex_num)

/-- A simplifier that rewrites `ex_T` to `true` with the proof `ex_e` and makes
no progress on any other term. -/
def ex_simplify (_ : name) (t : expr) (_ : simp_rule_sets) : simp_result :=
  if t = ex_T then ⟨ex_true, some ex_e⟩ else ⟨t, none⟩

/-- A simplifier that returns its input term together with a proof that the
term is related to itself. -/
def ex_simplify_refl (rel : name) (t : expr) (_ : simp_rule_sets) : simp_result :=
  ⟨t, some (expr.App (expr.Constant ⟨rel.id ++ ".refl"⟩) t)⟩

/-- Standard mode, every term a proposition, the scenario's simplifier. -/
def ex_context : blast_context :=
  ⟨true, fun _ => true, ex_simplify, app_builder.mk_app⟩

/-- Standard mode, every term a proposition, the reflexive simplifier. -/
def ex_context_refl : blast_context :=
  ⟨true, fun _ => true, ex_simplify_refl, app_builder.mk_app⟩

/-- The state of the example scenario: target `ex_T`, one earlier step on the
stack. -/
def ex_state : state :=
  ⟨ex_T, [], ⟨[]⟩, [proof_step.other_step 7]⟩

/-- A state whose target `true` the scenario's simplifier cannot rewrite. -/
def ex_state_true : state :=
  ⟨ex_true, [], ⟨[]⟩, [proof_step.other_step 7]⟩

/-- A step whose tag says `Iff` while its captured proof is a proof of an
equality: the spec's "mismatched relation tag vs. proof". -/
def ex_cell_mismatch : simplify_target_proof_step_cell := ⟨true, ex_h⟩

/-- A candidate proof `n : num`. -/
def ex_n : expr := expr.Local ⟨"n"⟩ ex_num

/-- A simplifier that rewrites `nat` to `num` with the proof `ex_h` and makes
no progress on any other term. -/
def ex_simplify_eq (_ : name) (t : expr) (_ : simp_rule_sets) : simp_result :=
  if t = ex_nat then ⟨ex_num, some ex_h⟩ else ⟨t, none⟩

/-- Non-standard mode: the relation is `Eq` whatever the target. -/
def ex_context_eq : blast_context :=
  ⟨false, fun _ => true, ex_simplify_eq, app_builder.mk_app⟩

/-- A state with the data-valued target `nat` and an empty stack. -/
def ex_state_nat : state :=
  ⟨ex_nat, [], ⟨[]⟩, []⟩

/-- Non-standard mode with the reflexive simplifier, whose proof records the
relation name it was called with. -/
def ex_context_refl_eq : blast_context :=
  ⟨false, fun _ => true, ex_simplify_refl, app_builder.mk_app⟩

/-- A state with a non-empty context, non-empty rule sets and three earlier
steps on the stack, with the target of the example scenario. -/
def ex_state_rich : state :=
  ⟨ex_T, [ex_p, ex_n], ⟨[ex_h]⟩,
   [proof_step.other_step 3, proof_step.simplify_target ⟨false, ex_h⟩,
    proof_step.other_step 7]⟩

/-! ## Helper lemmas -/

theorem simplify_target_action_none (c : blast_context) (s : state)
    (h : (c.simplify (if use_iff c s.get_target then get_iff_name else get_eq_name)
      s.get_target s.get_simp_rule_sets).m_proof = none) :
    simplify_target_action c s = (action_result.failed, s) := by
  simp only [simplify_target_action, h]

theorem simplify_target_action_some (c : blast_context) (s : state) (pr : expr)
    (h : (c.simplify (if use_iff c s.get_target then get_iff_name else get_eq_name)
      s.get_target s.get_simp_rule_sets).m_proof = some pr) :
    simplify_target_action c s =
      (action_result.new_branch,
       { m_target := (c.simplify (if use_iff c s.get_target then get_iff_name else get_eq_name)
           s.get_target s.get_simp_rule_sets).get_new,
         m_context := s.m_context,
         m_simp_rule_sets := s.m_simp_rule_sets,
         m_proof_steps :=
           proof_step.simplify_target ⟨use_iff c s.get_target, pr⟩ :: s.m_proof_steps }) := by
  simp only [simplify_target_action, h, state.push_proof_step, state.set_target]

theorem iff_name_ne_eq_name : get_iff_name ≠ get_eq_name := by decide

theorem iff_mpr_name_ne_eq_mpr_name : get_iff_mpr_name ≠ get_eq_mpr_name := by decide

theorem mk_app_iff_mpr (a b e p : expr) (he : infer_type e = some (mk_iff a b))
    (hp : infer_type p = some b) :
    app_builder.mk_app get_iff_mpr_name e p = Except.ok (mk_iff_mpr a b e p) := by
  simp [app_builder.mk_app, he, hp, mk_iff, dest_iff]

theorem mk_app_eq_mpr (A a b e p : expr) (he : infer_type e = some (mk_eq A a b))
    (hp : infer_type p = some b) :
    app_builder.mk_app get_eq_mpr_name e p = Except.ok (mk_eq_mpr a b e p) := by
  have hne : get_eq_mpr_name ≠ get_iff_mpr_name := fun h => iff_mpr_name_ne_eq_mpr_name h.symm
  simp [app_builder.mk_app, he, hp, mk_eq, dest_eq, hne]

theorem infer_type_mk_iff_mpr (a b e p : expr) (he : infer_type e = some (mk_iff a b))
    (hp : infer_type p = some b) :
    infer_type (mk_iff_mpr a b e p) = some a := by
  simp [mk_iff_mpr, infer_type, he, hp, mk_iff, dest_iff]

theorem infer_type_mk_eq_mpr (A a b e p : expr) (he : infer_type e = some (mk_eq A a b))
    (hp : infer_type p = some b) :
    infer_type (mk_eq_mpr a b e p) = some a := by
  have hne : get_eq_mpr_name ≠ get_iff_mpr_name := fun h => iff_mpr_name_ne_eq_mpr_name h.symm
  simp [mk_eq_mpr, infer_type, he, hp, mk_eq, dest_eq, hne]

/-! ## The claims -/

/-- C1: for every proof state `s` and every simplifier (and every other
collaborator), if `simplify_target_action` run on `s` returns `Failed`, the
state after the call equals `s`: same target, same context, same rule sets,
same reconstruction stack. -/
theorem simplify_target_action_failed_state_unchanged (c : blast_context) (s : state)
    (h : (simplify_target_action c s).1 = action_result.failed) :
    (simplify_target_action c s).2 = s := by
  cases hp : (c.simplify (if use_iff c s.get_target then get_iff_name else get_eq_name)
      s.get_target s.get_simp_rule_sets).m_proof with
  | none => rw [simplify_target_action_none c s hp]
  | some pr =>
    rw [simplify_target_action_some c s pr hp] at h
    exact absurd h (by simp)

/-- Witness of C1: on a target the simplifier cannot rewrite the action fails
and the state is the one it started from. -/
theorem simplify_target_action_failed_state_unchanged_witness :
    (simplify_target_action ex_context ex_state_true).1 = action_result.failed ∧
    (simplify_target_action ex_context ex_state_true).2 = ex_state_true :=
  ⟨by decide,
   simplify_target_action_failed_state_unchanged ex_context ex_state_true (by decide)⟩

/-- Counterexample to C2 as stated: with a simplifier that returns its input
term together with a proof, the action returns `NewBranch` while the target of
the resulting state is the target it started from. -/
theorem simplify_target_action_new_branch_same_target :
    (simplify_target_action ex_context_refl ex_state_true).1 = action_result.new_branch ∧
    (simplify_target_action ex_context_refl ex_state_true).2.m_target
      = ex_state_true.m_target := by
  decide

/-- C2 (amended): if `simplify_target_action` run on `s` returns `NewBranch`,
the target of the resulting state is the new term the simplifier returned for
(chosen relation, target of `s`, rule sets of `s`); it differs from the target
of `s` exactly when that new term does. -/
theorem simplify_target_action_new_branch_target (c : blast_context) (s : state)
    (h : (simplify_target_action c s).1 = action_result.new_branch) :
    (simplify_target_action c s).2.m_target
      = (c.simplify (if use_iff c s.get_target then get_iff_name else get_eq_name)
          s.get_target s.get_simp_rule_sets).get_new ∧
    ((simplify_target_action c s).2.m_target ≠ s.m_target ↔
      (c.simplify (if use_iff c s.get_target then get_iff_name else get_eq_name)
          s.get_target s.get_simp_rule_sets).get_new ≠ s.m_target) := by
  cases hp : (c.simplify (if use_iff c s.get_target then get_iff_name else get_eq_name)
      s.get_target s.get_simp_rule_sets).m_proof with
  | none =>
    rw [simplify_target_action_none c s hp] at h
    exact absurd h (by simp)
  | some pr =>
    rw [simplify_target_action_some c s pr hp]
    exact ⟨rfl, Iff.rfl⟩

/-- Witness of C2 (amended): in the example scenario the action opens a new
branch and the new target is the simplifier's `true`, which differs from the
old target. -/
theorem simplify_target_action_new_branch_target_witness :
    (simplify_target_action ex_context ex_state).1 = action_result.new_branch ∧
    (simplify_target_action ex_context ex_state).2.m_target = ex_true ∧
    (simplify_target_action ex_context ex_state).2.m_target ≠ ex_state.m_target :=
  have h := simplify_target_action_new_branch_target ex_context ex_state (by decide)
  ⟨by decide, h.1.trans (by decide), h.2.mpr (by decide)⟩

/-- C3: when the simplification result for (chosen relation, target of `s`,
rule sets of `s`) is `(new_term, some e)`, `simplify_target_action` returns
`NewBranch`, and the resulting state is `s` with exactly one Simplify-Target
step pushed on top of the stack, capturing the chosen relation tag and `e`,
and with target `new_term`. -/
theorem simplify_target_action_pushes_step (c : blast_context) (s : state)
    (new_term e : expr)
    (h : c.simplify (if use_iff c s.get_target then get_iff_name else get_eq_name)
      s.get_target s.get_simp_rule_sets = ⟨new_term, some e⟩) :
    (simplify_target_action c s).1 = action_result.new_branch ∧
    (simplify_target_action c s).2.m_proof_steps
      = proof_step.simplify_target ⟨use_iff c s.get_target, e⟩ :: s.m_proof_steps ∧
    (simplify_target_action c s).2.m_target = new_term ∧
    (simplify_target_action c s).2
      = { s with
          m_target := new_term,
          m_proof_steps :=
            proof_step.simplify_target ⟨use_iff c s.get_target, e⟩ :: s.m_proof_steps } := by
  have hp : (c.simplify (if use_iff c s.get_target then get_iff_name else get_eq_name)
      s.get_target s.get_simp_rule_sets).m_proof = some e := by rw [h]
  rw [simplify_target_action_some c s e hp, h]
  exact ⟨rfl, rfl, rfl, rfl⟩

/-- Witness of C3: the example scenario, where `(P ∧ Q) ↔ (Q ∧ P)` is
rewritten to `true` with the proof `e`. -/
theorem simplify_target_action_pushes_step_witness :
    (simplify_target_action ex_context ex_state).1 = action_result.new_branch ∧
    (simplify_target_action ex_context ex_state).2.m_proof_steps
      = [proof_step.simplify_target ⟨true, ex_e⟩, proof_step.other_step 7] ∧
    (simplify_target_action ex_context ex_state).2.m_target = ex_true :=
  have h := simplify_target_action_pushes_step ex_context ex_state ex_true ex_e (by decide)
  ⟨h.1, h.2.1, h.2.2.1⟩

/-- C4: `use_iff` selects `Iff` exactly when the environment is in standard
mode and the target is proposition-valued, and selects `Eq` in the three other
combinations; the relation name handed to the simplifier follows the same
table. -/
theorem use_iff_truth_table (c : blast_context) (target : expr) :
    (use_iff c target = true ↔ (c.is_standard = true ∧ c.is_prop target = true)) ∧
    (use_iff c target = false ↔ (c.is_standard = false ∨ c.is_prop target = false)) ∧
    ((if use_iff c target then get_iff_name else get_eq_name) = get_iff_name ↔
      (c.is_standard = true ∧ c.is_prop target = true)) ∧
    ((if use_iff c target then get_iff_name else get_eq_name) = get_eq_name ↔
      (c.is_standard = false ∨ c.is_prop target = false)) := by
  have hne := iff_name_ne_eq_name
  cases hs : c.is_standard <;> cases hq : c.is_prop target <;>
    simp [use_iff, hs, hq, hne, hne.symm]

/-- C5: round-trip reconstruction.  Let the application builder be the one
modelled from the spec.  If the simplifier returns `(T1, e)` for the target `T`
of `s`, `e` type-checks as a proof that the chosen relation holds between `T`
and `T1`, and `p` type-checks as a proof of `T1`, then the action pushes a step
whose `resolve p` returns `Solved q`, where `q` type-checks as a proof of `T`
and is `iff.mpr` applied to `(e, p)` when the relation chosen for `T` was `Iff`
and `eq.mpr` applied to `(e, p)` when it was `Eq`. -/
theorem simplify_target_round_trip (c : blast_context) (s : state) (A T1 e p : expr)
    (hb : c.mk_app = app_builder.mk_app)
    (hr : c.simplify (if use_iff c s.get_target then get_iff_name else get_eq_name)
      s.get_target s.get_simp_rule_sets = ⟨T1, some e⟩)
    (he : infer_type e = some
      (if use_iff c s.get_target then mk_iff s.get_target T1 else mk_eq A s.get_target T1))
    (hp : infer_type p = some T1) :
    ∃ cell q,
      (simplify_target_action c s).1 = action_result.new_branch ∧
      (simplify_target_action c s).2.m_proof_steps
        = proof_step.simplify_target cell :: s.m_proof_steps ∧
      (cell.resolve c p (simplify_target_action c s).2).1 = action_result.solved q ∧
      infer_type q = some s.get_target ∧
      q = (if use_iff c s.get_target then mk_iff_mpr s.get_target T1 e p
           else mk_eq_mpr s.get_target T1 e p) := by
  have hpr : (c.simplify (if use_iff c s.get_target then get_iff_name else get_eq_name)
      s.get_target s.get_simp_rule_sets).m_proof = some e := by rw [hr]
  refine ⟨⟨use_iff c s.get_target, e⟩, _, ?_, ?_, ?_, ?_, rfl⟩
  · rw [simplify_target_action_some c s e hpr]
  · rw [simplify_target_action_some c s e hpr]
  · cases hu : use_iff c s.get_target with
    | true =>
      rw [hu] at he
      simp [simplify_target_proof_step_cell.resolve, hb,
        mk_app_iff_mpr s.get_target T1 e p he hp]
    | false =>
      rw [hu] at he
      simp [simplify_target_proof_step_cell.resolve, hb,
        mk_app_eq_mpr A s.get_target T1 e p he hp]
  · cases hu : use_iff c s.get_target with
    | true =>
      rw [hu] at he
      simpa using infer_type_mk_iff_mpr s.get_target T1 e p he hp
    | false =>
      rw [hu] at he
      simpa using infer_type_mk_eq_mpr A s.get_target T1 e p he hp

/-- Witness of C5: the spec's scenario (`T` simplified to `true` with
`e : T ↔ true`, `p : true`, giving `Solved (iff.mpr e p)`), and an `Eq`
scenario in non-standard mode (`nat` rewritten to `num`). -/
theorem simplify_target_round_trip_witness :
    ((simplify_target_proof_step_cell.mk true ex_e).resolve ex_context ex_p
        (simplify_target_action ex_context ex_state).2).1
      = action_result.solved (mk_iff_mpr ex_T ex_true ex_e ex_p) ∧
    infer_type (mk_iff_mpr ex_T ex_true ex_e ex_p) = some ex_T ∧
    (∃ cell q,
      (simplify_target_action ex_context ex_state).1 = action_result.new_branch ∧
      (simplify_target_action ex_context ex_state).2.m_proof_steps
        = proof_step.simplify_target cell :: ex_state.m_proof_steps ∧
      (cell.resolve ex_context ex_p (simplify_target_action ex_context ex_state).2).1
        = action_result.solved q ∧
      infer_type q = some ex_T ∧ q = mk_iff_mpr ex_T ex_true ex_e ex_p) ∧
    (∃ cell q,
      (simplify_target_action ex_context_eq ex_state_nat).1 = action_result.new_branch ∧
      (simplify_target_action ex_context_eq ex_state_nat).2.m_proof_steps
        = proof_step.simplify_target cell :: ex_state_nat.m_proof_steps ∧
      (cell.resolve ex_context_eq ex_n (simplify_target_action ex_context_eq ex_state_nat).2).1
        = action_result.solved q ∧
      infer_type q = some ex_nat ∧ q = mk_eq_mpr ex_nat ex_num ex_h ex_n) :=
  ⟨by decide, by decide,
   simplify_target_round_trip ex_context ex_state (expr.Sort 1) ex_true ex_e ex_p
     rfl (by decide) (by decide) (by decide),
   simplify_target_round_trip ex_context_eq ex_state_nat (expr.Sort 1) ex_num ex_h ex_n
     rfl (by decide) (by decide) (by decide)⟩

/-- C6: for every Simplify-Target step and every candidate proof `p`, if the
application builder fails to build the converse-lemma application (`iff.mpr`
for an `Iff` step, `eq.mpr` for an `Eq` step), `resolve p` returns `Failed`:
the builder's error is turned into an ordinary action result. -/
theorem resolve_failed_of_mk_app_error (c : blast_context)
    (cell : simplify_target_proof_step_cell) (p : expr) (s : state)
    (ex : app_builder_exception)
    (h : c.mk_app (if cell.m_iff then get_iff_mpr_name else get_eq_mpr_name) cell.m_eq_pr p
      = Except.error ex) :
    (cell.resolve c p s).1 = action_result.failed := by
  cases hi : cell.m_iff with
  | true =>
    rw [hi] at h
    simp only [if_true] at h
    simp [simplify_target_proof_step_cell.resolve, hi, h]
  | false =>
    rw [hi] at h
    have h2 : c.mk_app get_eq_mpr_name cell.m_eq_pr p = Except.error ex := by simpa using h
    simp [simplify_target_proof_step_cell.resolve, hi, h2]

/-- Witness of C6: a step tagged `Iff` that captured a proof of an equality.
The modelled builder cannot apply `iff.mpr` to it, and `resolve` fails. -/
theorem resolve_failed_of_mk_app_error_witness :
    ex_context.mk_app get_iff_mpr_name ex_cell_mismatch.m_eq_pr ex_p
      = Except.error app_builder_exception.mk ∧
    (ex_cell_mismatch.resolve ex_context ex_p ex_state).1 = action_result.failed :=
  ⟨rfl,
   resolve_failed_of_mk_app_error ex_context ex_cell_mismatch ex_p ex_state
     app_builder_exception.mk rfl⟩

/-- C7: for every Simplify-Target step capturing `(iff, eq_pr)` and every
candidate proof `p` for which the application builder succeeds with `q`,
`resolve p` returns `Solved q`, `q` being the builder's application of
`iff.mpr` to `(eq_pr, p)` when the tag is `Iff` and of `eq.mpr` to
`(eq_pr, p)` when the tag is `Eq`. -/
theorem resolve_solved_of_mk_app_ok (c : blast_context) (iff : Bool) (eq_pr p q : expr)
    (s : state)
    (h : c.mk_app (if iff then get_iff_mpr_name else get_eq_mpr_name) eq_pr p = Except.ok q) :
    ((simplify_target_proof_step_cell.mk iff eq_pr).resolve c p s).1
      = action_result.solved q := by
  cases iff with
  | true =>
    have h2 : c.mk_app get_iff_mpr_name eq_pr p = Except.ok q := by simpa using h
    simp [simplify_target_proof_step_cell.resolve, h2]
  | false =>
    have h2 : c.mk_app get_eq_mpr_name eq_pr p = Except.ok q := by simpa using h
    simp [simplify_target_proof_step_cell.resolve, h2]

/-- Witness of C7: an `Iff` step resolved with `p : true` and an `Eq` step
resolved with `n : num`. -/
theorem resolve_solved_of_mk_app_ok_witness :
    ((simplify_target_proof_step_cell.mk true ex_e).resolve ex_context ex_p ex_state).1
      = action_result.solved (mk_iff_mpr ex_T ex_true ex_e ex_p) ∧
    ((simplify_target_proof_step_cell.mk false ex_h).resolve ex_context ex_n ex_state).1
      = action_result.solved (mk_eq_mpr ex_nat ex_num ex_h ex_n) :=
  ⟨resolve_solved_of_mk_app_ok ex_context true ex_e ex_p _ ex_state rfl,
   resolve_solved_of_mk_app_ok ex_context false ex_h ex_n _ ex_state rfl⟩

/-- C8: the relation chosen by `simplify_target_action` is used consistently.
When the simplifier, called with the name `iff` if `use_iff` holds of the
target and `eq` otherwise, returns a proof `e`, the pushed step stores the very
same choice as its tag: the name passed is `iff` exactly when the stored tag is
`true` and `eq` exactly when it is `false`, and the step's `resolve` applies
`iff.mpr` in the first case and `eq.mpr` in the second. -/
theorem simplify_target_action_relation_threaded (c : blast_context) (s : state) (e : expr)
    (h : (c.simplify (if use_iff c s.get_target then get_iff_name else get_eq_name)
      s.get_target s.get_simp_rule_sets).m_proof = some e) :
    ∃ cell : simplify_target_proof_step_cell,
      (simplify_target_action c s).2.m_proof_steps
        = proof_step.simplify_target cell :: s.m_proof_steps ∧
      cell.m_eq_pr = e ∧
      ((if use_iff c s.get_target then get_iff_name else get_eq_name) = get_iff_name
        ↔ cell.m_iff = true) ∧
      ((if use_iff c s.get_target then get_iff_name else get_eq_name) = get_eq_name
        ↔ cell.m_iff = false) ∧
      (cell.m_iff = true → ∀ p st, (cell.resolve c p st).1 =
        match c.mk_app get_iff_mpr_name e p with
        | Except.ok q => action_result.solved q
        | Except.error _ => action_result.failed) ∧
      (cell.m_iff = false → ∀ p st, (cell.resolve c p st).1 =
        match c.mk_app get_eq_mpr_name e p with
        | Except.ok q => action_result.solved q
        | Except.error _ => action_result.failed) := by
  have hne := iff_name_ne_eq_name
  refine ⟨⟨use_iff c s.get_target, e⟩, ?_, rfl, ?_, ?_, ?_, ?_⟩
  · rw [simplify_target_action_some c s e h]
  · cases use_iff c s.get_target <;> simp [hne, hne.symm]
  · cases use_iff c s.get_target <;> simp [hne, hne.symm]
  · intro hi p st
    have hi2 : use_iff c s.get_target = true := hi
    simp only [simplify_target_proof_step_cell.resolve, hi2, if_true]
    cases c.mk_app get_iff_mpr_name e p <;> rfl
  · intro hi p st
    have hi2 : use_iff c s.get_target = false := hi
    simp only [simplify_target_proof_step_cell.resolve, hi2]
    cases c.mk_app get_eq_mpr_name e p <;> rfl

/-- Witness of C8: the reflexive simplifier records in its proof the relation
name it was called with.  In standard mode the pushed step carries the tag
`true` and a proof built from `iff`; in non-standard mode the tag `false` and
a proof built from `eq`. -/
theorem simplify_target_action_relation_threaded_witness :
    (simplify_target_action ex_context_refl ex_state_true).2.m_proof_steps
      = [proof_step.simplify_target
          ⟨true, expr.App (expr.Constant ⟨"iff.refl"⟩) ex_true⟩,
         proof_step.other_step 7] ∧
    (simplify_target_action ex_context_refl_eq ex_state_true).2.m_proof_steps
      = [proof_step.simplify_target
          ⟨false, expr.App (expr.Constant ⟨"eq.refl"⟩) ex_true⟩,
         proof_step.other_step 7] ∧
    (∃ cell : simplify_target_proof_step_cell,
      (simplify_target_action ex_context_refl ex_state_true).2.m_proof_steps
        = proof_step.simplify_target cell :: ex_state_true.m_proof_steps ∧
      cell.m_iff = true) ∧
    (∃ cell : simplify_target_proof_step_cell,
      (simplify_target_action ex_context_refl_eq ex_state_true).2.m_proof_steps
        = proof_step.simplify_target cell :: ex_state_true.m_proof_steps ∧
      cell.m_iff = false) :=
  ⟨by decide, by decide,
   (simplify_target_action_relation_threaded ex_context_refl ex_state_true
      (expr.App (expr.Constant ⟨"iff.refl"⟩) ex_true) (by decide)).elim
     (fun cell hc => ⟨cell, hc.1, hc.2.2.1.mp (by decide)⟩),
   (simplify_target_action_relation_threaded ex_context_refl_eq ex_state_true
      (expr.App (expr.Constant ⟨"eq.refl"⟩) ex_true) (by decide)).elim
     (fun cell hc => ⟨cell, hc.1, hc.2.2.2.1.mp (by decide)⟩)⟩

/-- C9: for every proof state `s`, every Simplify-Target step and every
candidate proof `p`, `resolve p` leaves the proof state unchanged, whether it
returns `Solved` or `Failed`. -/
theorem resolve_state_unchanged (c : blast_context)
    (cell : simplify_target_proof_step_cell) (p : expr) (s : state) :
    (cell.resolve c p s).2 = s := by
  unfold simplify_target_proof_step_cell.resolve
  split
  · cases c.mk_app get_iff_mpr_name cell.m_eq_pr p <;> rfl
  · cases c.mk_app get_eq_mpr_name cell.m_eq_pr p <;> rfl

/-- C10: when the simplifier reports no equivalence proof on `s`, running
`simplify_target_action` twice in a row returns `Failed` both times, and the
state after the second run equals `s`. -/
theorem simplify_target_action_no_progress_twice (c : blast_context) (s : state)
    (h : (c.simplify (if use_iff c s.get_target then get_iff_name else get_eq_name)
      s.get_target s.get_simp_rule_sets).has_proof = false) :
    (simplify_target_action c s).1 = action_result.failed ∧
    (simplify_target_action c (simplify_target_action c s).2).1 = action_result.failed ∧
    (simplify_target_action c (simplify_target_action c s).2).2 = s := by
  have hp : (c.simplify (if use_iff c s.get_target then get_iff_name else get_eq_name)
      s.get_target s.get_simp_rule_sets).m_proof = none := by
    simpa [simp_result.has_proof] using h
  have h1 := simplify_target_action_none c s hp
  rw [h1]
  exact ⟨rfl, by rw [h1], by rw [h1]⟩

/-- Witness of C10: the scenario's simplifier cannot rewrite `true`; two runs
in a row fail and leave the state as it was. -/
theorem simplify_target_action_no_progress_twice_witness :
    (simplify_target_action ex_context ex_state_true).1 = action_result.failed ∧
    (simplify_target_action ex_context
      (simplify_target_action ex_context ex_state_true).2).1 = action_result.failed ∧
    (simplify_target_action ex_context
      (simplify_target_action ex_context ex_state_true).2).2 = ex_state_true :=
  simplify_target_action_no_progress_twice ex_context ex_state_true (by decide)

/-- C11: for every proof state `s`, `simplify_target_action` returns `Failed`
if and only if the simplifier's result for (chosen relation, target of `s`,
rule sets of `s`) has no equivalence proof, returns `NewBranch` if and only if
it has one, and never returns `Solved`. -/
theorem simplify_target_action_result_iff (c : blast_context) (s : state) :
    ((simplify_target_action c s).1 = action_result.failed ↔
      (c.simplify (if use_iff c s.get_target then get_iff_name else get_eq_name)
        s.get_target s.get_simp_rule_sets).has_proof = false) ∧
    ((simplify_target_action c s).1 = action_result.new_branch ↔
      (c.simplify (if use_iff c s.get_target then get_iff_name else get_eq_name)
        s.get_target s.get_simp_rule_sets).has_proof = true) ∧
    (∀ q, (simplify_target_action c s).1 ≠ action_result.solved q) := by
  cases hp : (c.simplify (if use_iff c s.get_target then get_iff_name else get_eq_name)
      s.get_target s.get_simp_rule_sets).m_proof with
  | none =>
    rw [simplify_target_action_none c s hp]
    simp [simp_result.has_proof, hp]
  | some pr =>
    rw [simplify_target_action_some c s pr hp]
    simp [simp_result.has_proof, hp]

/-- C12: for every Simplify-Target step and every candidate proof `p`,
`resolve p` returns either `Solved` or `Failed` and never `NewBranch`. -/
theorem resolve_solved_or_failed (c : blast_context)
    (cell : simplify_target_proof_step_cell) (p : expr) (s : state) :
    ((∃ q, (cell.resolve c p s).1 = action_result.solved q) ∨
      (cell.resolve c p s).1 = action_result.failed) ∧
    (cell.resolve c p s).1 ≠ action_result.new_branch := by
  unfold simplify_target_proof_step_cell.resolve
  split
  · cases c.mk_app get_iff_mpr_name cell.m_eq_pr p <;> simp
  · cases c.mk_app get_eq_mpr_name cell.m_eq_pr p <;> simp

/-- C13: for every proof state `s`, `simplify_target_action` returns `Failed`
if and only if the state after the call equals `s`; it returns `NewBranch` if
and only if the reconstruction stack after the call is one step longer than
the stack of `s`. -/
theorem simplify_target_action_failed_iff_state_unchanged (c : blast_context) (s : state) :
    ((simplify_target_action c s).1 = action_result.failed ↔
      (simplify_target_action c s).2 = s) ∧
    ((simplify_target_action c s).1 = action_result.new_branch ↔
      (simplify_target_action c s).2.m_proof_steps.length = s.m_proof_steps.length + 1) := by
  cases hp : (c.simplify (if use_iff c s.get_target then get_iff_name else get_eq_name)
      s.get_target s.get_simp_rule_sets).m_proof with
  | none =>
    rw [simplify_target_action_none c s hp]
    simp
  | some pr =>
    rw [simplify_target_action_some c s pr hp]
    refine ⟨⟨fun h => absurd h (by simp), fun h => ?_⟩, ⟨fun _ => by simp, fun _ => rfl⟩⟩
    have hs := congrArg state.m_proof_steps h
    exact absurd hs (List.cons_ne_self _ _)

/-- C14: for every proof state `s` on which `simplify_target_action` returns
`NewBranch`, the rule sets and the hypothesis/metavariable context are
unchanged, and the steps that were on the stack of `s` remain beneath the one
new step, in their original order. -/
theorem simplify_target_action_new_branch_frame (c : blast_context) (s : state)
    (h : (simplify_target_action c s).1 = action_result.new_branch) :
    (simplify_target_action c s).2.m_simp_rule_sets = s.m_simp_rule_sets ∧
    (simplify_target_action c s).2.m_context = s.m_context ∧
    (simplify_target_action c s).2.m_proof_steps.tail = s.m_proof_steps ∧
    ∃ cell : simplify_target_proof_step_cell,
      (simplify_target_action c s).2.m_proof_steps
        = proof_step.simplify_target cell :: s.m_proof_steps := by
  cases hp : (c.simplify (if use_iff c s.get_target then get_iff_name else get_eq_name)
      s.get_target s.get_simp_rule_sets).m_proof with
  | none =>
    rw [simplify_target_action_none c s hp] at h
    exact absurd h (by simp)
  | some pr =>
    rw [simplify_target_action_some c s pr hp]
    exact ⟨rfl, rfl, rfl, ⟨use_iff c s.get_target, pr⟩, rfl⟩

/-- Witness of C14: a state with a non-empty context, non-empty rule sets and
three steps on the stack.  After the action the context and the rule sets are
the same and the three steps lie, in order, beneath the new one. -/
theorem simplify_target_action_new_branch_frame_witness :
    (simplify_target_action ex_context ex_state_rich).1 = action_result.new_branch ∧
    (simplify_target_action ex_context ex_state_rich).2.m_simp_rule_sets = ⟨[ex_h]⟩ ∧
    (simplify_target_action ex_context ex_state_rich).2.m_context = [ex_p, ex_n] ∧
    (simplify_target_action ex_context ex_state_rich).2.m_proof_steps.tail
      = [proof_step.other_step 3, proof_step.simplify_target ⟨false, ex_h⟩,
         proof_step.other_step 7] :=
  have h := simplify_target_action_new_branch_frame ex_context ex_state_rich (by decide)
  ⟨by decide, h.1, h.2.1, h.2.2.1⟩

end blast
